import Mathlib

/-!
Verification of `tm2snip.py` (TextMate → snipMate snippet converter).

Strings are modelled as `List Char` (`Str`), so Python string primitives map to
list operations with matching semantics:
  * `s.replace(old, new)` with a one-character `old` = `pyReplace old new s`;
  * `s.split(sep)` with an explicit one-character separator keeps empty pieces
    and returns `[""]` on the empty string, exactly like `List.splitOn`;
  * `sep.join(xs)` = `List.intercalate sep xs`.
Python dicts built by `dict(pairs)` keep first-insertion order and let a later
duplicate key overwrite the stored value (`dictOf` / `insertKV`); `del d[k]`
raises `KeyError` when `k` is absent (`delKey` returns `Except`).

The XML layer (`minidom.parse`, `getElementsByTagName`, `firstChild.data`) is
abstracted as `XmlDoc`: the ordered list of text contents of the `key` elements
and of the `string` elements, where `none` stands for an element with no text
child (there `firstChild` is `None` and `.data` raises `AttributeError`).
A file that `minidom` cannot parse (`ExpatError`) is `none : Option XmlDoc`.
Uncaught Python exceptions surface as `ParseResult.fatal` / `Except.error`.
-/

namespace Tm2Snip

/-- Python strings, modelled as lists of characters. -/
abbrev Str := List Char

/-- Coerce a Lean string literal to the `List Char` model. -/
def str (s : String) : Str := s.data

/-- `s.replace(old, new)` for a one-character pattern `old`: every occurrence
of the character `old` is replaced by the string `new`. -/
def pyReplace (old : Char) (new : Str) (s : Str) : Str :=
  s.flatMap fun c => if c = old then new else [c]

/-- `s.split(sep)` with an explicit one-character separator (keeps empty
pieces; `"".split(sep) == [""]`). -/
def pySplit (sep : Char) (s : Str) : List Str := s.splitOn sep

/-- `sep.join(xs)`. -/
def pyJoin (sep : Str) (xs : List Str) : Str := sep.intercalate xs

/-- A Python dict with string keys and values, as its insertion-ordered
association list (keys unique). -/
abbrev Dict := List (Str × Str)

/-- `m[k] = v`: overwrite in place if `k` is present, else append. -/
def insertKV : Dict → Str → Str → Dict
  | [], k, v => [(k, v)]
  | kv :: rest, k, v =>
    if kv.1 = k then (k, v) :: rest else kv :: insertKV rest k v

/-- `dict(ps)`: fold the pairs left to right, later duplicates overwriting. -/
def dictOf (ps : List (Str × Str)) : Dict :=
  ps.foldl (fun m kv => insertKV m kv.1 kv.2) []

/-- `d.get(k)` — `some` value when present. -/
def lookupKV (m : Dict) (k : Str) : Option Str :=
  (m.find? fun kv => kv.1 == k).map (·.2)

/-- `d[k]` on a dict known to contain `k` (all uses are guarded by the
required-key validation, so the default is never reached). -/
def dictGet (m : Dict) (k : Str) : Str := (lookupKV m k).getD []

/-- `del d[k]`: `KeyError` (`Except.error`) when `k` is absent. -/
def delKey (m : Dict) (k : Str) : Except Unit Dict :=
  if (lookupKV m k).isSome then .ok (m.filter fun kv => kv.1 != k)
  else .error ()

/-- A well-formed XML document, abstracted to the ordered text contents of its
`key` elements and its `string` elements; `none` marks an element with no text
child (whose `firstChild.data` raises `AttributeError`). -/
structure XmlDoc where
  keyTexts : List (Option Str)
  strTexts : List (Option Str)

/-- Outcome of `SnipWriter._parse_file`: a rejection with a human-readable
reason (a `WARN` + `return None` in the source), an uncaught exception
(`fatal`), or a parsed record dict. -/
inductive ParseResult where
  | rejected (reason : Str)
  | fatal
  | parsed (d : Dict)
deriving DecidableEq

/-- `[(kn.firstChild.data, sn.firstChild.data) for kn, sn in zip(...)]`:
`none` (AttributeError) as soon as any element lacks a text child. -/
def extractPairs : List (Option Str × Option Str) → Option (List (Str × Str))
  | [] => some []
  | (some k, some v) :: rest => (extractPairs rest).map ((k, v) :: ·)
  | _ => none

/-- `required_keys = ('content', 'name', 'scope', 'tabTrigger')`. -/
def requiredKeys : List Str :=
  [str "content", str "name", str "scope", str "tabTrigger"]

/-- The rejection reason printed when a required key is absent. -/
def keyMissingReason (rk : Str) : Str :=
  str "Required key '" ++ rk ++ str "' is missing"

/-- `SnipWriter._parse_file`, with I/O abstracted away: the argument is
`none` when `minidom.parse` raises `ExpatError`. -/
def parse_file (doc : Option XmlDoc) : ParseResult :=
  match doc with
  | none => .rejected (str "not a valid TextMate snippet")
  | some doc =>
    if doc.keyTexts.isEmpty || doc.strTexts.isEmpty then
      .rejected (str "invalid snippet information")
    else if doc.keyTexts.length ≠ doc.strTexts.length then
      .rejected (str "missing snippet information")
    else
      match extractPairs (doc.keyTexts.zip doc.strTexts) with
      | none => .fatal
      | some ps =>
        let d := dictOf ps
        match requiredKeys.find? (fun rk => (lookupKV d rk).isNone) with
        | some rk => .rejected (keyMissingReason rk)
        | none => .parsed d

/-- `self.data`: map from namespace key to the list of records read under it,
in Python-dict insertion order. -/
abbrev Data := List (Str × List Dict)

/-- `nspace in self.data.keys()` / `self.data[nspace]`. -/
def lookupData (data : Data) (k : Str) : Option (List Dict) :=
  (data.find? fun kv => kv.1 == k).map (·.2)

/-- Lines 71-74 of `read`: append to the existing list for the key, or start
a new singleton entry. -/
def addRecord (data : Data) (k : Str) (d : Dict) : Data :=
  if (lookupData data k).isSome then
    data.map fun kv => if kv.1 == k then (kv.1, kv.2 ++ [d]) else kv
  else data ++ [(k, [d])]

/-- `d['scope'].replace("\n", ".")`. -/
def canonScope (scope : Str) : Str := pyReplace '\n' (str ".") scope

/-- Lines 68-70 of `read`: canonicalize the scope, take dot-segments `[1:3]`,
hyphen-join them, and hyphen-append the domain. -/
def namespaceKey (scope dom : Str) : Str :=
  let s := canonScope scope
  let nspace := pyJoin (str "-") (((pySplit '.' s).drop 1).take 2)
  pyJoin (str "-") [nspace, dom]

/-- `SnipWriter.read`: parse one file and store the record. Returns the
`0`/`1` valid-snippet count together with the updated `self.data`;
`Except.error` models an uncaught exception (the unconditional
`del(d['uuid'])` raises `KeyError` when the record has no `uuid` key). -/
def read (dom : Str) (st : Data) (doc : Option XmlDoc) :
    Except Unit (Nat × Data) :=
  match parse_file doc with
  | .fatal => .error ()
  | .rejected _ => .ok (0, st)
  | .parsed d =>
    match delKey d (str "uuid") with
    | .error e => .error e
    | .ok d1 =>
      match lookupKV d1 (str "scope") with
      | none => .error ()
      | some sc =>
        let d2 := insertKV d1 (str "scope") (canonScope sc)
        .ok (1, addRecord st (namespaceKey sc dom) d2)

/-- The per-file loop of `SnipWriter.read_dir`: fold `read` over the listed
files, accumulating `n_valid`; an exception escaping `read` aborts the loop. -/
def read_dir (dom : Str) (st : Data) (n : Nat) :
    List (Option XmlDoc) → Except Unit (Nat × Data)
  | [] => .ok (n, st)
  | doc :: rest =>
    match read dom st doc with
    | .error e => .error e
    | .ok (m, st1) => read_dir dom st1 (n + m) rest

/-- `"".join(s['name'].split(' ')[1:])` (the `except` branch is dead code:
`str.split` never raises). -/
def displayName (name : Str) : Str :=
  pyJoin [] ((pySplit ' ' name).drop 1)

/-- `banner_str = "# Created by %s @ %s\n\n" % (prg_name, now)`. -/
def bannerStr (prg now : Str) : Str :=
  str "# Created by " ++ prg ++ str " @ " ++ now ++ str "\n\n"

/-- `header_str`: the per-file header line followed by the banner. -/
def headerStr (k prg now : Str) : Str :=
  str "# " ++ k ++ str " snippets for snipMate.\n" ++ bannerStr prg now

/-- `snip_str` for one record: comment line, trigger line, tab-prefixed body
with every newline of `content` turned into newline+tab, two newlines. -/
def snip_str (s : Dict) : Str :=
  let name := displayName (dictGet s (str "name"))
  let cont := pyReplace '\n' (str "\n\t") (dictGet s (str "content"))
  let trig := dictGet s (str "tabTrigger")
  str "# " ++ name ++ str "\n" ++
    (str "snippet " ++ trig ++ str " " ++ name ++ str "\n") ++
    (str "\t" ++ cont) ++ str "\n\n"

/-- `SnipWriter.write`, with file-system effects abstracted: the list of
`(file name, file content)` pairs produced for one run, given `sys.argv[0]`
and the timestamp taken once before the loop. Empty data short-circuits. -/
def write (data : Data) (prg now : Str) : List (Str × Str) :=
  if data.isEmpty then []
  else data.map fun kv =>
    (kv.1 ++ str ".snippets", headerStr kv.1 prg now ++ (kv.2.map snip_str).flatten)

/-- Undo the body indentation: drop the one tab inserted after each newline.
Spec-side inverse used to state the content round trip. -/
def untabNl : Str → Str
  | [] => []
  | '\n' :: '\t' :: rest2 => '\n' :: untabNl rest2
  | c :: rest => c :: untabNl rest

/-- The normalizer algorithm transcribed from the spec (§4.2): replace each
newline of `scope` by a period, split on periods, join the segments at
0-indexed positions 1 and 2 with a hyphen, append the domain with a hyphen. -/
def specNamespaceKey (scope dom : Str) : Str :=
  let canon := scope.map fun c => if c = '\n' then '.' else c
  let segs := canon.splitOn '.'
  List.intercalate (str "-") ((segs.drop 1).take 2) ++ str "-" ++ dom

/-- Total number of records held in the collection. -/
def totalRecords (data : Data) : Nat := (data.map fun kv => kv.2.length).sum

/-- The collection is a Python dict, so its keys are pairwise distinct. -/
def keysNodup (data : Data) : Prop := (data.map Prod.fst).Nodup

section Lemmas

lemma pyJoin_nil (xs : List Str) : pyJoin [] xs = xs.flatten := by
  unfold pyJoin
  induction xs with
  | nil => rfl
  | cons a t ih =>
    cases t with
    | nil => simp [List.intercalate, List.intersperse]
    | cons b t2 =>
      simp only [List.intercalate, List.intersperse_cons_cons, List.flatten] at ih ⊢
      simp [ih]

lemma pyJoin_pair (sep a b : Str) : pyJoin sep [a, b] = a ++ sep ++ b := by
  simp [pyJoin, List.intercalate, List.intersperse]

lemma pySplit_pyJoin (sep : Char) (ts : List Str) (hne : ts ≠ [])
    (hsep : ∀ t ∈ ts, sep ∉ t) : pySplit sep (pyJoin [sep] ts) = ts :=
  List.splitOn_intercalate ts sep hsep hne

lemma flatMap_singleton_fn (f : Char → Char) (l : Str) :
    (l.flatMap fun c => [f c]) = l.map f := by
  induction l with
  | nil => rfl
  | cons a t ih => simp [List.flatMap_cons, ih]

lemma pyReplace_single (old c0 : Char) (s : Str) :
    pyReplace old [c0] s = s.map fun c => if c = old then c0 else c := by
  unfold pyReplace
  rw [show (fun c => if c = old then [c0] else [c]) =
      fun c => [if c = old then c0 else c] from
    funext fun c => (apply_ite (fun x => [x]) (c = old) c0 c).symm]
  exact flatMap_singleton_fn _ s

lemma untabNl_nl_tab (l : Str) : untabNl ('\n' :: '\t' :: l) = '\n' :: untabNl l := by
  simp [untabNl]

lemma untabNl_cons (c : Char) (l : Str) (h : c ≠ '\n') :
    untabNl (c :: l) = c :: untabNl l := by
  rw [untabNl.eq_def]
  split <;> simp_all

lemma pyReplace_nl_cons_nl (rest : Str) :
    pyReplace '\n' (str "\n\t") ('\n' :: rest) =
      '\n' :: '\t' :: pyReplace '\n' (str "\n\t") rest := rfl

lemma pyReplace_nl_cons (c : Char) (rest : Str) (hc : c ≠ '\n') :
    pyReplace '\n' (str "\n\t") (c :: rest) =
      c :: pyReplace '\n' (str "\n\t") rest := by
  simp [pyReplace, List.flatMap_cons, hc]

lemma untabNl_pyReplace (s : Str) :
    untabNl (pyReplace '\n' (str "\n\t") s) = s := by
  induction s with
  | nil => rfl
  | cons c rest ih =>
    by_cases hc : c = '\n'
    · subst hc
      rw [pyReplace_nl_cons_nl, untabNl_nl_tab, ih]
    · rw [pyReplace_nl_cons c rest hc, untabNl_cons _ _ hc, ih]

lemma pyReplace_length (s : Str) :
    (pyReplace '\n' (str "\n\t") s).length = s.length + s.count '\n' := by
  induction s with
  | nil => rfl
  | cons c rest ih =>
    by_cases hc : c = '\n'
    · subst hc
      rw [pyReplace_nl_cons_nl]
      simp [ih, List.count_cons]
      omega
    · rw [pyReplace_nl_cons c rest hc]
      simp [ih, List.count_cons, hc]
      omega

end Lemmas

/-- C1, counterexample: the source joins the tokens after the first with the
EMPTY string (`"".join(...)`), not with spaces, so `"My Snippet Title"`
renders as `"SnippetTitle"`, not `"Snippet Title"`; and a name with no space
loses everything (`split(' ')[1:]` is empty), so `"Title"` renders as `""`,
not unmodified. -/
theorem displayName_claim_counterexample :
    displayName (str "My Snippet Title") = str "SnippetTitle" ∧
    displayName (str "My Snippet Title") ≠ str "Snippet Title" ∧
    displayName (str "Title") = str "" ∧
    displayName (str "Title") ≠ str "Title" ∧
    snip_str [(str "name", str "My Snippet Title"), (str "content", str "c"),
        (str "tabTrigger", str "t")] =
      str "# SnippetTitle\nsnippet t SnippetTitle\n\tc\n\n" := by
  refine ⟨by decide, by decide, by decide, by decide, by decide⟩

/-- C1, amended: for a name made of space-free tokens joined by single
spaces, the rendered displayName is the tokens after the first concatenated
WITHOUT separator; in particular a one-token (spaceless) name renders as the
empty string, not unmodified. -/
theorem displayName_drops_head_and_concatenates (ts : List Str)
    (hne : ts ≠ []) (hsp : ∀ t ∈ ts, ' ' ∉ t) :
    displayName (pyJoin (str " ") ts) = (ts.drop 1).flatten := by
  have h : pySplit ' ' (pyJoin [' '] ts) = ts := pySplit_pyJoin ' ' ts hne hsp
  unfold displayName
  rw [show str " " = [' '] from rfl, h, pyJoin_nil]

/-- C1, witness: the amended statement evaluated on `"My Snippet Title"`. -/
theorem displayName_amended_witness :
    displayName (str "My Snippet Title") = str "SnippetTitle" := by
  have h := displayName_drops_head_and_concatenates
    [str "My", str "Snippet", str "Title"] (by simp) (by decide)
  have e1 : pyJoin (str " ") [str "My", str "Snippet", str "Title"] =
      str "My Snippet Title" := by decide
  have e2 : (([str "My", str "Snippet", str "Title"] : List Str).drop 1).flatten
      = str "SnippetTitle" := by decide
  rw [e1, e2] at h
  exact h

/-- C4: the namespace key computed by `read` (replace newlines with periods,
split on periods, hyphen-join the 0-indexed segments 1 and 2, hyphen-append
the domain) agrees with the spec's normalizer algorithm on every input, and
Scenario A holds: scope `"source.python.django\n"` with the default domain
`"zope"` yields `"python-django-zope"`. -/
theorem namespaceKey_matches_spec :
    (∀ scope dom : Str, namespaceKey scope dom = specNamespaceKey scope dom) ∧
    namespaceKey (str "source.python.django\n") (str "zope") =
      str "python-django-zope" := by
  constructor
  · intro scope dom
    unfold namespaceKey specNamespaceKey canonScope pySplit
    rw [show str "." = ['.'] from rfl, pyReplace_single, pyJoin_pair]
    rfl
  · decide

/-- C5: in the rendered snippet the body appears as one tab followed by
`content` with each newline turned into newline+tab and two closing
newlines; the replacement is one-for-one (the length grows by exactly the
newline count) and lossless (dropping the inserted tab after each newline
recovers `content` exactly). -/
theorem snippet_body_preserves_content (s : Dict) :
    (∃ pre, snip_str s =
      pre ++ (str "\t" ++ pyReplace '\n' (str "\n\t") (dictGet s (str "content")))
        ++ str "\n\n") ∧
    untabNl (pyReplace '\n' (str "\n\t") (dictGet s (str "content"))) =
      dictGet s (str "content") ∧
    (pyReplace '\n' (str "\n\t") (dictGet s (str "content"))).length =
      (dictGet s (str "content")).length + (dictGet s (str "content")).count '\n' := by
  refine ⟨⟨str "# " ++ displayName (dictGet s (str "name")) ++ str "\n" ++
      (str "snippet " ++ dictGet s (str "tabTrigger") ++ str " " ++
        displayName (dictGet s (str "name")) ++ str "\n"), ?_⟩,
    untabNl_pyReplace _, pyReplace_length _⟩
  simp [snip_str]

section DictLemmas

lemma lookup_insertKV (m : Dict) (k v k' : Str) :
    lookupKV (insertKV m k v) k' = if k' = k then some v else lookupKV m k' := by
  induction m with
  | nil =>
    by_cases h : k' = k <;>
      simp [insertKV, lookupKV, List.find?_cons, h, beq_iff_eq, Ne.symm]
  | cons kv rest ih =>
    by_cases hk : kv.1 = k
    · by_cases h : k' = k <;>
        simp [insertKV, lookupKV, List.find?_cons, hk, h, beq_iff_eq, Ne.symm]
    · by_cases h : k' = k
      · subst h
        have hne : ¬(kv.1 == k') = true := by simp [beq_iff_eq, hk]
        simp only [insertKV, if_neg hk, lookupKV, List.find?_cons, hne,
          if_pos rfl] at ih ⊢
        have := ih
        simp only [lookupKV] at this
        simpa [if_pos rfl] using this
      · simp only [insertKV, if_neg hk, lookupKV, List.find?_cons]
        by_cases hkv : (kv.1 == k') = true
        · simp [hkv, h]
        · simp only [hkv]
          have := ih
          simp only [lookupKV, if_neg h] at this
          simpa [hkv, h] using this

lemma lookup_foldl_insert (ps : List (Str × Str)) (m : Dict) (k : Str) :
    lookupKV (ps.foldl (fun m kv => insertKV m kv.1 kv.2) m) k =
      ((ps.reverse.find? fun kv => kv.1 == k).map (·.2)).or (lookupKV m k) := by
  induction ps generalizing m with
  | nil => simp
  | cons kv rest ih =>
    simp only [List.foldl_cons, List.reverse_cons]
    rw [ih, List.find?_append, lookup_insertKV]
    cases hfind : rest.reverse.find? (fun kv => kv.1 == k) with
    | some kv0 => simp [Option.or]
    | none =>
      by_cases hkv : kv.1 = k <;>
        simp [List.find?_cons, hkv, beq_iff_eq, Ne.symm, Option.or]

lemma lookup_dictOf (ps : List (Str × Str)) (k : Str) :
    lookupKV (dictOf ps) k =
      (ps.reverse.find? fun kv => kv.1 == k).map (·.2) := by
  unfold dictOf
  rw [lookup_foldl_insert]
  simp [lookupKV]

end DictLemmas

/-- C2: the source deletes `uuid` unconditionally (`del(d['uuid'])`), so a
file whose record has all four required fields but no `uuid` key passes
validation (`parse_file` returns the record) and then `read` raises
`KeyError`, which nothing catches: the batch aborts instead of storing the
record. With `uuid` present the same file is read fine. -/
theorem read_crashes_without_uuid :
    parse_file (some ⟨[some (str "content"), some (str "name"),
        some (str "scope"), some (str "tabTrigger")],
        [some (str "b"), some (str "n"), some (str "source.py"), some (str "t")]⟩) =
      .parsed [(str "content", str "b"), (str "name", str "n"),
        (str "scope", str "source.py"), (str "tabTrigger", str "t")] ∧
    read (str "zope") [] (some ⟨[some (str "content"), some (str "name"),
        some (str "scope"), some (str "tabTrigger")],
        [some (str "b"), some (str "n"), some (str "source.py"), some (str "t")]⟩) =
      .error () ∧
    read (str "zope") [] (some ⟨[some (str "content"), some (str "name"),
        some (str "scope"), some (str "tabTrigger"), some (str "uuid")],
        [some (str "b"), some (str "n"), some (str "source.py"), some (str "t"),
          some (str "u-1")]⟩) =
      .ok (1, [(str "py-zope", [[(str "content", str "b"), (str "name", str "n"),
        (str "scope", str "source.py"), (str "tabTrigger", str "t")]])]) :=
  ⟨rfl, rfl, rfl⟩

/-- C3: a well-formed document whose `key` element has no text content makes
`kn.firstChild.data` raise `AttributeError` (`firstChild` is `None`), which
`_parse_file` does not catch: the outcome is an uncaught exception, not a
rejection with a reason, and it propagates through `read` and aborts the
whole `read_dir` batch. -/
theorem empty_key_element_is_fatal :
    parse_file (some ⟨[none], [some (str "x")]⟩) = .fatal ∧
    read (str "zope") [] (some ⟨[none], [some (str "x")]⟩) = .error () ∧
    read_dir (str "zope") [] 0
      [some ⟨[none], [some (str "x")]⟩,
       some ⟨[some (str "content"), some (str "name"), some (str "scope"),
         some (str "tabTrigger"), some (str "uuid")],
         [some (str "b"), some (str "n"), some (str "s"), some (str "t"),
           some (str "u")]⟩] = .error () :=
  ⟨rfl, rfl, rfl⟩

/-- C6: for a parseable document, `_parse_file` rejects at the pairing stage
(reasons "invalid snippet information" / "missing snippet information")
exactly when the key-element list or the string-element list is empty or the
two have different lengths; and folding the zipped pairs into a dict is
last-wins: the stored value of any key is the value of the last pair
carrying it. -/
theorem pairing_rejects_iff_and_last_wins :
    (∀ kns sns : List (Option Str),
      (parse_file (some ⟨kns, sns⟩) = .rejected (str "invalid snippet information") ∨
       parse_file (some ⟨kns, sns⟩) = .rejected (str "missing snippet information")) ↔
      (kns = [] ∨ sns = [] ∨ kns.length ≠ sns.length)) ∧
    (∀ (ps : List (Str × Str)) (k : Str),
      lookupKV (dictOf ps) k =
        (ps.reverse.find? fun kv => kv.1 == k).map (·.2)) := by
  refine ⟨fun kns sns => ?_, fun ps k => lookup_dictOf ps k⟩
  by_cases h1 : kns = []
  · simp [parse_file, h1]
  · by_cases h2 : sns = []
    · simp [parse_file, h1, h2]
    · by_cases h3 : kns.length = sns.length
      · simp only [parse_file, List.isEmpty_eq_true, h1, h2, h3, ne_eq,
          not_true_eq_false, Bool.or_eq_true, false_or, if_neg, if_false]
        cases he : extractPairs (kns.zip sns) with
        | none => simp [h1, h2, h3]
        | some ps =>
          simp only []
          cases hf : requiredKeys.find? (fun rk => (lookupKV (dictOf ps) rk).isNone) with
          | none => simp [h1, h2, h3]
          | some rk =>
            have hmem := List.mem_of_find?_eq_some hf
            simp only [requiredKeys, List.mem_cons, List.mem_singleton,
              List.not_mem_nil, or_false] at hmem
            have hne1 : keyMissingReason rk ≠ str "invalid snippet information" := by
              rcases hmem with h | h | h | h <;> subst h <;> decide
            have hne2 : keyMissingReason rk ≠ str "missing snippet information" := by
              rcases hmem with h | h | h | h <;> subst h <;> decide
            simp [h1, h2, h3, hne1, hne2]
      · have hcheck : ¬(kns.isEmpty || sns.isEmpty) = true := by
          simp [List.isEmpty_eq_true, h1, h2]
        simp [parse_file, hcheck, h1, h2, h3]

/-- C6, witness: a document with one `key` element and no `string` element is
rejected at the pairing stage. -/
theorem pairing_reject_witness :
    parse_file (some ⟨[some (str "content")], []⟩) =
      .rejected (str "invalid snippet information") := by
  have h := (pairing_rejects_iff_and_last_wins.1 [some (str "content")] []).mpr
    (Or.inr (Or.inl rfl))
  rcases h with h | h
  · exact h
  · exact absurd h (by decide)

section DataLemmas

lemma lookupData_addRecord (data : Data) (k : Str) (d : Dict) :
    lookupData (addRecord data k d) k =
      some ((lookupData data k).getD [] ++ [d]) := by
  unfold addRecord
  by_cases h : (lookupData data k).isSome
  · rw [if_pos h]
    unfold lookupData at h ⊢
    rw [List.find?_map]
    have hp : ((fun kv : Str × List Dict => kv.1 == k) ∘
        fun kv => if kv.1 == k then (kv.1, kv.2 ++ [d]) else kv) =
        fun kv : Str × List Dict => kv.1 == k := by
      funext kv
      by_cases hkv : kv.1 = k <;> simp [hkv]
    rw [hp]
    cases hfind : data.find? (fun kv => kv.1 == k) with
    | none => rw [hfind] at h; simp at h
    | some kv0 =>
      have heq : kv0.1 = k := by
        have := List.find?_some hfind
        simpa [beq_iff_eq] using this
      simp [heq]
  · rw [if_neg h]
    have hnone : (data.find? fun kv => kv.1 == k) = none := by
      cases hfind : data.find? (fun kv => kv.1 == k) with
      | none => rfl
      | some kv0 => rw [Option.not_isSome_iff_eq_none] at h
                    unfold lookupData at h
                    rw [hfind] at h
                    simp at h
    unfold lookupData
    rw [List.find?_append, hnone]
    simp [List.find?_cons]

end DataLemmas

/-- C7: `addRecord` always succeeds, appending to the sequence already held
under the key (or creating a singleton for a fresh key, so three successive
adds under a fresh key store exactly `[R1, R2, R3]`), and the output file
`write` produces for that key renders the stored records in exactly that
order after the header. -/
theorem aggregation_preserves_order (data : Data) (k : Str) (d1 d2 d3 : Dict)
    (prg now : Str) :
    (∀ rs, lookupData data k = some rs →
      lookupData (addRecord data k d1) k = some (rs ++ [d1])) ∧
    (lookupData data k = none →
      lookupData (addRecord (addRecord (addRecord data k d1) k d2) k d3) k =
        some [d1, d2, d3]) ∧
    (∀ rs, lookupData data k = some rs →
      (k ++ str ".snippets",
        headerStr k prg now ++ (rs.map snip_str).flatten) ∈ write data prg now) := by
  refine ⟨fun rs hrs => ?_, fun h0 => ?_, fun rs hrs => ?_⟩
  · rw [lookupData_addRecord, hrs]
    rfl
  · rw [lookupData_addRecord, lookupData_addRecord, lookupData_addRecord, h0]
    rfl
  · unfold write
    have hne : data ≠ [] := by
      intro hd
      rw [hd] at hrs
      simp [lookupData] at hrs
    rw [if_neg (by simp [List.isEmpty_iff, hne])]
    unfold lookupData at hrs
    cases hfind : data.find? (fun kv => kv.1 == k) with
    | none => rw [hfind] at hrs; simp at hrs
    | some kv0 =>
      rw [hfind] at hrs
      simp only [Option.map, Option.some.injEq] at hrs
      have hkey : kv0.1 = k := by
        have := List.find?_some hfind
        simpa [beq_iff_eq] using this
      have hmem : kv0 ∈ data := List.mem_of_find?_eq_some hfind
      rw [← hkey, ← hrs]
      exact List.mem_map_of_mem _ hmem

/-- C7, witness: adding three records under the fresh key `"k"` to an
initially empty collection stores them in arrival order, and the rendered
file for `"k"` lists them in that order. -/
theorem aggregation_order_witness :
    lookupData (addRecord (addRecord (addRecord [] (str "k")
        [(str "name", str "a")]) (str "k") [(str "name", str "b")]) (str "k")
        [(str "name", str "c")]) (str "k") =
      some [[(str "name", str "a")], [(str "name", str "b")],
        [(str "name", str "c")]] :=
  (aggregation_preserves_order [] (str "k") [(str "name", str "a")]
    [(str "name", str "b")] [(str "name", str "c")] [] []).2.1 rfl

/-- C9: every file produced by one `write` run decomposes as its per-key
header line followed by the one banner string `bannerStr prg now` computed
before the loop: all output files of a run carry the byte-identical banner
(same invocation string, same timestamp). -/
theorem banner_identical_across_files (data : Data) (prg now : Str)
    (p : Str × Str) (hp : p ∈ write data prg now) :
    ∃ k rs, p = (k ++ str ".snippets",
      (str "# " ++ k ++ str " snippets for snipMate.\n") ++ bannerStr prg now ++
        ((rs : List Dict).map snip_str).flatten) := by
  unfold write at hp
  by_cases hd : data.isEmpty
  · rw [if_pos hd] at hp
    simp at hp
  · rw [if_neg hd] at hp
    obtain ⟨kv, hkv, hpe⟩ := List.mem_map.mp hp
    exact ⟨kv.1, kv.2, by rw [← hpe]; simp [headerStr, List.append_assoc]⟩

/-- C9, witness: the single file written for the collection `[("a", [])]`
decomposes as header line plus banner. -/
theorem banner_identical_witness :
    ∃ k rs, ((str "a.snippets",
        str "# a snippets for snipMate.\n# Created by p @ t\n\n") : Str × Str) =
      (k ++ str ".snippets",
        (str "# " ++ k ++ str " snippets for snipMate.\n") ++
          bannerStr (str "p") (str "t") ++
          ((rs : List Dict).map snip_str).flatten) :=
  banner_identical_across_files [(str "a", [])] (str "p") (str "t") _ (by decide)

section CountLemmas

lemma read_dir_snoc_zero (dom : Str) (doc : Option XmlDoc)
    (hdoc : ∀ st, read dom st doc = .ok (0, st)) :
    ∀ (docs : List (Option XmlDoc)) (st : Data) (n n1 : Nat) (st1 : Data),
      read_dir dom st n docs = .ok (n1, st1) →
      read_dir dom st n (docs ++ [doc]) = .ok (n1, st1) := by
  intro docs
  induction docs with
  | nil =>
    intro st n n1 st1 h
    simp only [read_dir, Except.ok.injEq, Prod.mk.injEq] at h
    obtain ⟨h1, h2⟩ := h
    subst h1; subst h2
    simp [read_dir, hdoc st]
  | cons d rest ih =>
    intro st n n1 st1 h
    simp only [read_dir, List.cons_append] at h ⊢
    revert h
    cases hr : read dom st d with
    | error e => intro h; exact absurd h (by simp)
    | ok p =>
      obtain ⟨m, st2⟩ := p
      intro h
      exact ih st2 (n + m) n1 st1 h

lemma totalRecords_append (l1 l2 : Data) :
    totalRecords (l1 ++ l2) = totalRecords l1 + totalRecords l2 := by
  simp [totalRecords]

lemma totalRecords_addRecord (data : Data) (k : Str) (d : Dict)
    (h : keysNodup data) :
    totalRecords (addRecord data k d) = totalRecords data + 1 := by
  unfold addRecord
  by_cases hl : (lookupData data k).isSome
  · rw [if_pos hl]
    induction data with
    | nil => simp [lookupData] at hl
    | cons kv rest ih =>
      have hnd : keysNodup rest := (List.nodup_cons.mp h).2
      rw [List.map_cons]
      by_cases hkv : kv.1 = k
      · have hrest : rest.map (fun kv => if kv.1 == k then (kv.1, kv.2 ++ [d]) else kv)
            = rest := by
          have hcg : ∀ kv2 ∈ rest,
              (if kv2.1 == k then (kv2.1, kv2.2 ++ [d]) else kv2) = id kv2 := by
            intro kv2 hm2
            have hne : kv2.1 ≠ k := by
              intro he
              exact (List.nodup_cons.mp h).1
                (by rw [hkv, ← he]; exact List.mem_map_of_mem Prod.fst hm2)
            simp [hne]
          rw [List.map_congr_left hcg, List.map_id]
        have hfkv : (if kv.1 == k then (kv.1, kv.2 ++ [d]) else kv) =
            (kv.1, kv.2 ++ [d]) := by simp [hkv]
        rw [hfkv, hrest]
        simp [totalRecords]
        omega
      · have hb : (kv.1 == k) = false := by simp [hkv]
        have hl2 : (lookupData rest k).isSome := by
          unfold lookupData at hl ⊢
          rw [List.find?_cons, hb] at hl
          exact hl
        have ihr := ih hnd hl2
        have hfkv : (if kv.1 == k then (kv.1, kv.2 ++ [d]) else kv) = kv := by
          simp [hkv]
        rw [hfkv]
        simp only [totalRecords, List.map_cons, List.sum_cons] at ihr ⊢
        omega
  · rw [if_neg hl]
    rw [totalRecords_append]
    simp [totalRecords]

lemma keysNodup_addRecord (data : Data) (k : Str) (d : Dict)
    (h : keysNodup data) : keysNodup (addRecord data k d) := by
  unfold addRecord
  by_cases hl : (lookupData data k).isSome
  · rw [if_pos hl]
    have hkeys : (data.map fun kv =>
        if kv.1 == k then (kv.1, kv.2 ++ [d]) else kv).map Prod.fst =
          data.map Prod.fst := by
      rw [List.map_map]
      apply List.map_congr_left
      intro kv _
      by_cases hkv : kv.1 = k <;> simp [hkv]
    unfold keysNodup
    rw [hkeys]
    exact h
  · rw [if_neg hl]
    have hnotin : k ∉ data.map Prod.fst := by
      intro hmem
      obtain ⟨kv, hkv, he⟩ := List.mem_map.mp hmem
      have hnone : (data.find? fun kv => kv.1 == k) = none := by
        rw [Option.not_isSome_iff_eq_none] at hl
        unfold lookupData at hl
        cases hfind : data.find? fun kv => kv.1 == k with
        | none => rfl
        | some kv0 => rw [hfind] at hl; simp at hl
      exact (List.find?_eq_none.mp hnone kv hkv) (by simp [he])
    unfold keysNodup at h ⊢
    rw [List.map_append]
    refine List.Nodup.append h (by simp) ?_
    intro a ha hb
    simp only [List.map_cons, List.map_nil, List.mem_singleton] at hb
    subst hb
    exact hnotin ha

lemma read_ok_total (dom : Str) (st : Data) (doc : Option XmlDoc) (m : Nat)
    (st1 : Data) (hnd : keysNodup st) (h : read dom st doc = .ok (m, st1)) :
    totalRecords st1 = totalRecords st + m ∧ keysNodup st1 := by
  unfold read at h
  split at h
  · exact absurd h (by simp)
  · simp only [Except.ok.injEq, Prod.mk.injEq] at h
    obtain ⟨h1, h2⟩ := h
    subst h1; subst h2
    exact ⟨by omega, hnd⟩
  · split at h
    · exact absurd h (by simp)
    · split at h
      · exact absurd h (by simp)
      · simp only [Except.ok.injEq, Prod.mk.injEq] at h
        obtain ⟨h1, h2⟩ := h
        subst h1
        rw [← h2]
        exact ⟨totalRecords_addRecord _ _ _ hnd, keysNodup_addRecord _ _ _ hnd⟩

lemma read_dir_ok_total (dom : Str) :
    ∀ (docs : List (Option XmlDoc)) (st : Data) (n n1 : Nat) (st1 : Data),
      keysNodup st → read_dir dom st n docs = .ok (n1, st1) →
      totalRecords st1 + n = totalRecords st + n1 := by
  intro docs
  induction docs with
  | nil =>
    intro st n n1 st1 _ h
    simp only [read_dir, Except.ok.injEq, Prod.mk.injEq] at h
    obtain ⟨h1, h2⟩ := h
    subst h1; subst h2
    omega
  | cons d rest ih =>
    intro st n n1 st1 hnd h
    simp only [read_dir] at h
    split at h
    · exact absurd h (by simp)
    · rename_i m st2 heq
      obtain ⟨ht, hnd1⟩ := read_ok_total dom st d m st2 hnd heq
      have := ih st2 (n + m) n1 st1 hnd1 h
      omega

end CountLemmas

/-- C8: a file whose record lacks the `tabTrigger` key (the other required
fields being present) is rejected with the reason naming `tabTrigger`; its
`read` returns 0 and leaves the collection unchanged (zero entries in any
output), and appending it to a directory listing leaves `n_valid` and the
final collection of `read_dir` unchanged while growing the scanned-file
count by one. -/
theorem missing_tabTrigger_rejected (kns sns : List (Option Str))
    (ps : List (Str × Str))
    (hk : kns ≠ []) (hs : sns ≠ []) (hlen : kns.length = sns.length)
    (hext : extractPairs (kns.zip sns) = some ps)
    (hc : lookupKV (dictOf ps) (str "content") ≠ none)
    (hn : lookupKV (dictOf ps) (str "name") ≠ none)
    (hsc : lookupKV (dictOf ps) (str "scope") ≠ none)
    (ht : lookupKV (dictOf ps) (str "tabTrigger") = none) :
    parse_file (some ⟨kns, sns⟩) =
      .rejected (keyMissingReason (str "tabTrigger")) ∧
    (∀ (dom : Str) (st : Data), read dom st (some ⟨kns, sns⟩) = .ok (0, st)) ∧
    (∀ (dom : Str) (st : Data) (n : Nat) (docs : List (Option XmlDoc))
        (n1 : Nat) (st1 : Data), read_dir dom st n docs = .ok (n1, st1) →
      read_dir dom st n (docs ++ [some (XmlDoc.mk kns sns)]) = .ok (n1, st1) ∧
      (docs ++ [some (XmlDoc.mk kns sns)]).length = docs.length + 1) := by
  have e1 : (lookupKV (dictOf ps) (str "content")).isNone = false := by
    obtain ⟨v, hv⟩ := Option.ne_none_iff_exists'.mp hc
    rw [hv]; rfl
  have e2 : (lookupKV (dictOf ps) (str "name")).isNone = false := by
    obtain ⟨v, hv⟩ := Option.ne_none_iff_exists'.mp hn
    rw [hv]; rfl
  have e3 : (lookupKV (dictOf ps) (str "scope")).isNone = false := by
    obtain ⟨v, hv⟩ := Option.ne_none_iff_exists'.mp hsc
    rw [hv]; rfl
  have e4 : (lookupKV (dictOf ps) (str "tabTrigger")).isNone = true := by
    rw [ht]; rfl
  have hparse : parse_file (some ⟨kns, sns⟩) =
      .rejected (keyMissingReason (str "tabTrigger")) := by
    simp only [parse_file]
    rw [if_neg (by simp [List.isEmpty_iff, hk, hs] :
      ¬(kns.isEmpty || sns.isEmpty) = true)]
    rw [if_neg (by omega : ¬kns.length ≠ sns.length)]
    rw [hext]
    simp only [requiredKeys, List.find?_cons, e1, e2, e3, e4]
  have hread : ∀ dom st, read dom st (some ⟨kns, sns⟩) = .ok (0, st) := by
    intro dom st
    unfold read
    rw [hparse]
  refine ⟨hparse, hread, fun dom st n docs n1 st1 h => ?_⟩
  exact ⟨read_dir_snoc_zero dom _ (hread dom) docs st n n1 st1 h, by simp⟩

/-- C8, witness: a concrete three-pair document lacking `tabTrigger` is
rejected naming `tabTrigger`, read as 0 valid snippets with the collection
untouched, and counted as one more scanned file of an empty directory. -/
theorem missing_tabTrigger_witness :
    parse_file (some ⟨[some (str "content"), some (str "name"), some (str "scope")],
        [some (str "b"), some (str "n"), some (str "s")]⟩) =
      .rejected (keyMissingReason (str "tabTrigger")) ∧
    read (str "zope") [] (some ⟨[some (str "content"), some (str "name"),
        some (str "scope")], [some (str "b"), some (str "n"), some (str "s")]⟩) =
      .ok (0, []) := by
  have h := missing_tabTrigger_rejected
    [some (str "content"), some (str "name"), some (str "scope")]
    [some (str "b"), some (str "n"), some (str "s")]
    [(str "content", str "b"), (str "name", str "n"), (str "scope", str "s")]
    (by simp) (by simp) (by decide) (by decide)
    (by decide) (by decide) (by decide) (by decide)
  exact ⟨h.1, h.2.1 (str "zope") []⟩

/-- C10: a `read` returning 1 grows the collection by exactly one record, a
`read` returning 0 leaves it untouched, and therefore the `n_valid` count
reported after the `read_dir` loop over any file list equals the sum over
all namespace keys of the lengths of their record lists. -/
theorem valid_count_matches_collection_size (dom : Str) :
    (∀ st doc st1, keysNodup st → read dom st doc = .ok (1, st1) →
      totalRecords st1 = totalRecords st + 1) ∧
    (∀ st doc st1, read dom st doc = .ok (0, st1) → st1 = st) ∧
    (∀ docs n1 st1, read_dir dom [] 0 docs = .ok (n1, st1) →
      totalRecords st1 = n1) := by
  refine ⟨fun st doc st1 hnd h => (read_ok_total dom st doc 1 st1 hnd h).1,
    fun st doc st1 h => ?_, fun docs n1 st1 h => ?_⟩
  · unfold read at h
    split at h
    · exact absurd h (by simp)
    · simp only [Except.ok.injEq, Prod.mk.injEq] at h
      exact h.2.symm
    · split at h
      · exact absurd h (by simp)
      · split at h
        · exact absurd h (by simp)
        · simp at h
  · have := read_dir_ok_total dom docs [] 0 n1 st1 (by simp [keysNodup]) h
    simpa [totalRecords] using this

/-- C10, witness: reading one complete snippet file (with `uuid`) from an
empty collection reports 1 valid snippet, and the resulting collection holds
exactly 1 record in total. -/
theorem valid_count_witness :
    totalRecords [(str "py-zope", [[(str "content", str "b"), (str "name", str "n"),
      (str "scope", str "source.py"), (str "tabTrigger", str "t")]])] = 1 :=
  (valid_count_matches_collection_size (str "zope")).2.2
    [some ⟨[some (str "content"), some (str "name"), some (str "scope"),
        some (str "tabTrigger"), some (str "uuid")],
      [some (str "b"), some (str "n"), some (str "source.py"), some (str "t"),
        some (str "u-1")]⟩]
    1 _ rfl

end Tm2Snip
